import Mathlib

/-!
Verification of the streaming workflow response aggregator of the
AI-Data-Analyst client.

The embedding mirrors the TypeScript source:
  - src/pages/chat.tsx: the onSuccess fold building the ai_answer record,
    the askQuestion request builder and the message-list mutations;
  - src/components/ModelSelector.tsx and SelectDataset.tsx: the
    default-model effect and the model-catalog fetch with its fallback.

JavaScript values are embedded as the inductive type JSValue; property
access on null or undefined raises a TypeError, which the embedding
models with Except.  Numbers are modelled as integers, which suffices
for every literal appearing in the code under study.
-/

/-- A JavaScript value: undefined, null, boolean, number, string,
array or object (an association list of fields). -/
inductive JSValue where
  | undefined : JSValue
  | null : JSValue
  | bool : Bool → JSValue
  | num : Int → JSValue
  | str : String → JSValue
  | arr : List JSValue → JSValue
  | obj : List (String × JSValue) → JSValue

/-- JavaScript truthiness: undefined, null, false, 0 and the empty
string are falsy; every array and object is truthy. -/
def truthy : JSValue → Bool
  | .undefined => false
  | .null => false
  | .bool b => b
  | .num n => n != 0
  | .str s => s != ""
  | .arr _ => true
  | .obj _ => true

/-- Property access v.k as a partial operation: none models the
TypeError raised when v is null or undefined; on any other value the
access yields the field value, or undefined when the field is missing
or the value is not an object. -/
def JSValue.getField : JSValue → String → Option JSValue
  | .undefined, _ => none
  | .null, _ => none
  | .obj fs, k => some (((fs.find? (fun p => p.1 == k)).map Prod.snd).getD .undefined)
  | _, _ => some .undefined

/-- Property access in the Except monad: raising TypeError on null and
undefined receivers, exactly as the unguarded accesses in the source. -/
def JSValue.getFieldE (v : JSValue) (k : String) : Except String JSValue :=
  match v.getField k with
  | some w => .ok w
  | none => .error "TypeError"

/-- Total property access, defined only for use on values that are not
null or undefined, where it agrees with getField. -/
def jsGet (v : JSValue) (k : String) : JSValue :=
  (v.getField k).getD .undefined

/-- A value is a safe event receiver when property access on it cannot
throw, i.e. it is neither null nor undefined. -/
def safeEvent : JSValue → Bool
  | .undefined => false
  | .null => false
  | _ => true

/-- Mirror of the JavaScript test x !== undefined. -/
def isDefined : JSValue → Bool
  | .undefined => false
  | _ => true

/-- The ai_answer record accumulated by the onSuccess fold in
chat.tsx; each slot is none while the corresponding key has not been
assigned. -/
structure AnswerDraft where
  answer : Option JSValue := none
  formatted_data_for_visualization : Option JSValue := none
  recommended_visualization : Option JSValue := none
  sql_query : Option JSValue := none
  sql_valid : Option JSValue := none
  parsed_question : Option JSValue := none
  model_used : Option JSValue := none

theorem AnswerDraft.ext {a b : AnswerDraft}
    (h1 : a.answer = b.answer)
    (h2 : a.formatted_data_for_visualization = b.formatted_data_for_visualization)
    (h3 : a.recommended_visualization = b.recommended_visualization)
    (h4 : a.sql_query = b.sql_query)
    (h5 : a.sql_valid = b.sql_valid)
    (h6 : a.parsed_question = b.parsed_question)
    (h7 : a.model_used = b.model_used) : a = b := by
  cases a; cases b; simp_all

/-- One iteration of the data.forEach callback in the onSuccess handler
of chat.tsx (lines 42 to 62): each field of the message is read (the
read throws on a null or undefined message) and, when the guard of the
source passes, assigned into the accumulating record.  The guard is
truthiness for every field except sql_valid, which is compared against
undefined. -/
def foldStep (ai_answer : AnswerDraft) (message : JSValue) : Except String AnswerDraft := do
  let answer ← message.getFieldE "answer"
  let d1 := if truthy answer then { ai_answer with answer := some answer } else ai_answer
  let fdv ← message.getFieldE "formatted_data_for_visualization"
  let d2 := if truthy fdv then { d1 with formatted_data_for_visualization := some fdv } else d1
  let rv ← message.getFieldE "recommended_visualization"
  let d3 := if truthy rv then { d2 with recommended_visualization := some rv } else d2
  let sq ← message.getFieldE "sql_query"
  let d4 := if truthy sq then { d3 with sql_query := some sq } else d3
  let sv ← message.getFieldE "sql_valid"
  let d5 := if isDefined sv then { d4 with sql_valid := some sv } else d4
  let pq ← message.getFieldE "parsed_question"
  let d6 := if truthy pq then { d5 with parsed_question := some pq } else d5
  pure d6

/-- The data.forEach loop of the onSuccess handler: events are folded
in arrival order; an exception raised by the callback aborts the
iteration, as forEach does. -/
def foldEvents (d : AnswerDraft) : List JSValue → Except String AnswerDraft
  | [] => .ok d
  | m :: ms => do
      let d1 ← foldStep d m
      foldEvents d1 ms

/-- Pure form of foldStep, usable on safe events, where no property
access can throw. -/
def foldStepO (d : AnswerDraft) (message : JSValue) : AnswerDraft :=
  let d1 := if truthy (jsGet message "answer") then
    { d with answer := some (jsGet message "answer") } else d
  let d2 := if truthy (jsGet message "formatted_data_for_visualization") then
    { d1 with formatted_data_for_visualization := some (jsGet message "formatted_data_for_visualization") } else d1
  let d3 := if truthy (jsGet message "recommended_visualization") then
    { d2 with recommended_visualization := some (jsGet message "recommended_visualization") } else d2
  let d4 := if truthy (jsGet message "sql_query") then
    { d3 with sql_query := some (jsGet message "sql_query") } else d3
  let d5 := if isDefined (jsGet message "sql_valid") then
    { d4 with sql_valid := some (jsGet message "sql_valid") } else d4
  if truthy (jsGet message "parsed_question") then
    { d5 with parsed_question := some (jsGet message "parsed_question") } else d5

/-- Pure form of foldEvents. -/
def foldEventsO (d : AnswerDraft) (ms : List JSValue) : AnswerDraft :=
  ms.foldl foldStepO d

theorem getFieldE_safe {m : JSValue} (h : safeEvent m = true) (k : String) :
    m.getFieldE k = .ok (jsGet m k) := by
  cases m <;> simp_all [safeEvent, JSValue.getFieldE, JSValue.getField, jsGet]

theorem getFieldE_unsafe {m : JSValue} (h : safeEvent m = false) (k : String) :
    m.getFieldE k = .error "TypeError" := by
  cases m <;> simp_all [safeEvent, JSValue.getFieldE, JSValue.getField]

theorem foldStep_safe {m : JSValue} (h : safeEvent m = true) (d : AnswerDraft) :
    foldStep d m = .ok (foldStepO d m) := by
  simp only [foldStep, foldStepO, getFieldE_safe h]
  rfl

theorem foldEvents_safe {ms : List JSValue} (h : ∀ m ∈ ms, safeEvent m = true)
    (d : AnswerDraft) : foldEvents d ms = .ok (foldEventsO d ms) := by
  induction ms generalizing d with
  | nil => rfl
  | cons m ms ih =>
      have hm : safeEvent m = true := h m (List.mem_cons_self m ms)
      have hms : ∀ x ∈ ms, safeEvent x = true := fun x hx => h x (List.mem_cons_of_mem m hx)
      simp only [foldEvents, foldStep_safe hm, foldEventsO, List.foldl_cons]
      simpa [foldEventsO] using ih hms (foldStepO d m)

theorem foldStepO_eq (d : AnswerDraft) (m : JSValue) :
    foldStepO d m =
      { answer := if truthy (jsGet m "answer") then some (jsGet m "answer") else d.answer,
        formatted_data_for_visualization :=
          if truthy (jsGet m "formatted_data_for_visualization") then
            some (jsGet m "formatted_data_for_visualization")
          else d.formatted_data_for_visualization,
        recommended_visualization :=
          if truthy (jsGet m "recommended_visualization") then
            some (jsGet m "recommended_visualization")
          else d.recommended_visualization,
        sql_query := if truthy (jsGet m "sql_query") then some (jsGet m "sql_query") else d.sql_query,
        sql_valid := if isDefined (jsGet m "sql_valid") then some (jsGet m "sql_valid") else d.sql_valid,
        parsed_question :=
          if truthy (jsGet m "parsed_question") then some (jsGet m "parsed_question")
          else d.parsed_question,
        model_used := d.model_used } := by
  unfold foldStepO
  by_cases h1 : truthy (jsGet m "answer") <;>
  by_cases h2 : truthy (jsGet m "formatted_data_for_visualization") <;>
  by_cases h3 : truthy (jsGet m "recommended_visualization") <;>
  by_cases h4 : truthy (jsGet m "sql_query") <;>
  by_cases h5 : isDefined (jsGet m "sql_valid") <;>
  by_cases h6 : truthy (jsGet m "parsed_question") <;>
  simp [h1, h2, h3, h4, h5, h6]

/-- The left option when it is set, the right one otherwise. -/
def orSet (o fallback : Option JSValue) : Option JSValue :=
  match o with
  | some v => some v
  | none => fallback

/-- The value of field k in the last event of the sequence whose value
for k satisfies the presence test p, or none when no event does. -/
def lastCarried (p : JSValue → Bool) (k : String) (evs : List JSValue) : Option JSValue :=
  evs.foldl (fun acc e => if p (jsGet e k) then some (jsGet e k) else acc) none

theorem lastCarried_char (p : JSValue → Bool) (k : String) (evs : List JSValue)
    (init : Option JSValue) :
    evs.foldl (fun acc e => if p (jsGet e k) then some (jsGet e k) else acc) init
      = orSet (lastCarried p k evs) init := by
  induction evs generalizing init with
  | nil => rfl
  | cons e evs ih =>
      simp only [lastCarried, List.foldl_cons] at *
      by_cases h : p (jsGet e k)
      · simp only [h, if_pos]
        rw [ih (some (jsGet e k))]
        cases evs.foldl (fun acc x => if p (jsGet x k) then some (jsGet x k) else acc) none <;>
          simp [orSet]
      · simp only [h, if_neg, Bool.false_eq_true, not_false_iff, ite_false]
        rw [ih init, ih none]

theorem foldEventsO_answer (d : AnswerDraft) (evs : List JSValue) :
    (foldEventsO d evs).answer = orSet (lastCarried truthy "answer" evs) d.answer := by
  rw [← lastCarried_char]
  induction evs generalizing d with
  | nil => rfl
  | cons e evs ih =>
      simp only [foldEventsO, List.foldl_cons] at *
      rw [ih (foldStepO d e), foldStepO_eq]

theorem foldEventsO_fdv (d : AnswerDraft) (evs : List JSValue) :
    (foldEventsO d evs).formatted_data_for_visualization
      = orSet (lastCarried truthy "formatted_data_for_visualization" evs)
          d.formatted_data_for_visualization := by
  rw [← lastCarried_char]
  induction evs generalizing d with
  | nil => rfl
  | cons e evs ih =>
      simp only [foldEventsO, List.foldl_cons] at *
      rw [ih (foldStepO d e), foldStepO_eq]

theorem foldEventsO_rv (d : AnswerDraft) (evs : List JSValue) :
    (foldEventsO d evs).recommended_visualization
      = orSet (lastCarried truthy "recommended_visualization" evs)
          d.recommended_visualization := by
  rw [← lastCarried_char]
  induction evs generalizing d with
  | nil => rfl
  | cons e evs ih =>
      simp only [foldEventsO, List.foldl_cons] at *
      rw [ih (foldStepO d e), foldStepO_eq]

theorem foldEventsO_sql_query (d : AnswerDraft) (evs : List JSValue) :
    (foldEventsO d evs).sql_query
      = orSet (lastCarried truthy "sql_query" evs) d.sql_query := by
  rw [← lastCarried_char]
  induction evs generalizing d with
  | nil => rfl
  | cons e evs ih =>
      simp only [foldEventsO, List.foldl_cons] at *
      rw [ih (foldStepO d e), foldStepO_eq]

theorem foldEventsO_sql_valid (d : AnswerDraft) (evs : List JSValue) :
    (foldEventsO d evs).sql_valid
      = orSet (lastCarried isDefined "sql_valid" evs) d.sql_valid := by
  rw [← lastCarried_char]
  induction evs generalizing d with
  | nil => rfl
  | cons e evs ih =>
      simp only [foldEventsO, List.foldl_cons] at *
      rw [ih (foldStepO d e), foldStepO_eq]

theorem foldEventsO_parsed_question (d : AnswerDraft) (evs : List JSValue) :
    (foldEventsO d evs).parsed_question
      = orSet (lastCarried truthy "parsed_question" evs) d.parsed_question := by
  rw [← lastCarried_char]
  induction evs generalizing d with
  | nil => rfl
  | cons e evs ih =>
      simp only [foldEventsO, List.foldl_cons] at *
      rw [ih (foldStepO d e), foldStepO_eq]

theorem foldEventsO_model_used (d : AnswerDraft) (evs : List JSValue) :
    (foldEventsO d evs).model_used = d.model_used := by
  induction evs generalizing d with
  | nil => rfl
  | cons e evs ih =>
      simp only [foldEventsO, List.foldl_cons] at *
      rw [ih (foldStepO d e), foldStepO_eq]

theorem orSet_isSome {a b : Option JSValue} (h : b.isSome = true) :
    (orSet a b).isSome = true := by
  cases a <;> simp [orSet, h]

/-- The statement of claim C1 for a fold of evs starting from draft d
and ending in res: every field holds the value of the last event whose
value for that field passes the presence test of the source (truthiness,
and definedness for sql_valid), an untouched field keeps the
accumulated value, and a field that is set is never reset to none. -/
def LastWriteWins (d res : AnswerDraft) (evs : List JSValue) : Prop :=
  res.answer = orSet (lastCarried truthy "answer" evs) d.answer ∧
  res.formatted_data_for_visualization
    = orSet (lastCarried truthy "formatted_data_for_visualization" evs)
        d.formatted_data_for_visualization ∧
  res.recommended_visualization
    = orSet (lastCarried truthy "recommended_visualization" evs)
        d.recommended_visualization ∧
  res.sql_query = orSet (lastCarried truthy "sql_query" evs) d.sql_query ∧
  res.sql_valid = orSet (lastCarried isDefined "sql_valid" evs) d.sql_valid ∧
  res.parsed_question = orSet (lastCarried truthy "parsed_question" evs) d.parsed_question ∧
  (d.answer.isSome = true → res.answer.isSome = true) ∧
  (d.formatted_data_for_visualization.isSome = true →
    res.formatted_data_for_visualization.isSome = true) ∧
  (d.recommended_visualization.isSome = true → res.recommended_visualization.isSome = true) ∧
  (d.sql_query.isSome = true → res.sql_query.isSome = true) ∧
  (d.sql_valid.isSome = true → res.sql_valid.isSome = true) ∧
  (d.parsed_question.isSome = true → res.parsed_question.isSome = true)

/-- C1: folding a sequence of stage events on stream success is
last-write-wins per field: each ai_answer field holds the value from
the last event that carried that field present (present in the sense
of the source guards: truthy, and not undefined for sql_valid); events
that omit a field leave the accumulated value untouched, and a field
once present is never reset to absent. -/
theorem c1_fold_last_write_wins (d : AnswerDraft) (evs : List JSValue)
    (h : ∀ e ∈ evs, safeEvent e = true) :
    ∃ res, foldEvents d evs = .ok res ∧ LastWriteWins d res evs := by
  refine ⟨foldEventsO d evs, foldEvents_safe h d, ?_⟩
  refine ⟨foldEventsO_answer d evs, foldEventsO_fdv d evs, foldEventsO_rv d evs,
    foldEventsO_sql_query d evs, foldEventsO_sql_valid d evs,
    foldEventsO_parsed_question d evs, ?_, ?_, ?_, ?_, ?_, ?_⟩ <;>
    intro hs
  · rw [foldEventsO_answer d evs]; exact orSet_isSome hs
  · rw [foldEventsO_fdv d evs]; exact orSet_isSome hs
  · rw [foldEventsO_rv d evs]; exact orSet_isSome hs
  · rw [foldEventsO_sql_query d evs]; exact orSet_isSome hs
  · rw [foldEventsO_sql_valid d evs]; exact orSet_isSome hs
  · rw [foldEventsO_parsed_question d evs]; exact orSet_isSome hs

/-- A concrete stage event setting answer and sql_valid. -/
def wEv1 : JSValue := .obj [("answer", .str "first"), ("sql_valid", .bool true)]

/-- A concrete stage event setting only answer. -/
def wEv2 : JSValue := .obj [("answer", .str "second")]

theorem c1_fold_last_write_wins_witness :
    (∀ e ∈ [wEv1, wEv2], safeEvent e = true) ∧
    ∃ res, foldEvents {} [wEv1, wEv2] = .ok res ∧ LastWriteWins {} res [wEv1, wEv2] :=
  ⟨by decide, c1_fold_last_write_wins {} [wEv1, wEv2] (by decide)⟩

/-- The whole onSuccess handler of chat.tsx: fold the received events
into the ai_answer record, then stamp model_used with the selectedModel
value that is current when the handler runs, i.e. at assembly time. -/
def onSuccess (selectedModel : String) (data : List JSValue) : Except String AnswerDraft := do
  let d ← foldEvents {} data
  pure { d with model_used := some (.str selectedModel) }

/-- C3: the assembled answer carries in model_used the selected model
read at the moment of assembly (stream completion); when the selection
changed from the submission-time value m0 to m1 while streaming, the
stamped value is m1, not m0. -/
theorem c3_model_used_at_assembly (m0 m1 : String) (data : List JSValue)
    (hsafe : ∀ e ∈ data, safeEvent e = true) (hne : m0 ≠ m1) :
    ∃ res, onSuccess m1 data = .ok res ∧
      res.model_used = some (.str m1) ∧ res.model_used ≠ some (.str m0) := by
  refine ⟨{ foldEventsO {} data with model_used := some (.str m1) }, ?_, rfl, ?_⟩
  · simp [onSuccess, foldEvents_safe hsafe]
  · simp
    exact fun hsm => absurd hsm.symm hne

theorem c3_model_used_at_assembly_witness :
    (∀ e ∈ [wEv1], safeEvent e = true) ∧ ("model-a" ≠ "model-b") ∧
    ∃ res, onSuccess "model-b" [wEv1] = .ok res ∧
      res.model_used = some (.str "model-b") ∧ res.model_used ≠ some (.str "model-a") :=
  ⟨by decide, by decide,
    c3_model_used_at_assembly "model-a" "model-b" [wEv1] (by decide) (by decide)⟩

/-- The six stage-event fields read by the onSuccess fold. -/
def fieldKeys : List String :=
  ["answer", "formatted_data_for_visualization", "recommended_visualization",
   "sql_query", "sql_valid", "parsed_question"]

/-- Whether an event carries field k present in the sense of the
source guards: not undefined for sql_valid, truthy for the others. -/
def carriesF (e : JSValue) (k : String) : Bool :=
  if k == "sql_valid" then isDefined (jsGet e k) else truthy (jsGet e k)

theorem lastCarried_none {p : JSValue → Bool} {k : String} {evs : List JSValue}
    (h : ∀ e ∈ evs, p (jsGet e k) = false) : lastCarried p k evs = none := by
  induction evs with
  | nil => rfl
  | cons e evs ih =>
      have he : p (jsGet e k) = false := h e (List.mem_cons_self e evs)
      simp only [lastCarried, List.foldl_cons, he, Bool.false_eq_true, if_false]
      exact ih fun x hx => h x (List.mem_cons_of_mem e hx)

/-- C6 counterexample: the fold is applied to a single event of
non-record shape, the JavaScript value null, and throws a TypeError
instead of completing, because the source reads message.answer with no
guard on the receiver. -/
theorem c6_counterexample_null_event :
    foldEvents {} [JSValue.null] = .error "TypeError" := rfl

/-- C6 amended: the event fold never throws for any event that is not
null or undefined, events with unknown, missing or non-record fields
included; unrecognized or missing fields are treated as absent, so a
sequence of events carrying none of the six fields folds to the empty
record.  An event that is itself null or undefined, however, makes the
fold throw. -/
theorem c6_no_throw_on_non_nullish (evs : List JSValue)
    (h : ∀ e ∈ evs, safeEvent e = true) :
    (∃ d, foldEvents {} evs = .ok d) ∧
    ((∀ e ∈ evs, ∀ k ∈ fieldKeys, carriesF e k = false) →
      foldEvents {} evs = .ok {}) := by
  constructor
  · exact ⟨foldEventsO {} evs, foldEvents_safe h {}⟩
  · intro hnone
    rw [foldEvents_safe h]
    have hempty : foldEventsO {} evs = {} := by
      have key : ∀ kk ∈ fieldKeys, ∀ p : JSValue → Bool,
          (∀ e, carriesF e kk = p (jsGet e kk)) → lastCarried p kk evs = none := by
        intro kk hkk p hp
        exact lastCarried_none fun e he => by rw [← hp e]; exact hnone e he kk hkk
      apply AnswerDraft.ext
      · rw [foldEventsO_answer]
        rw [key "answer" (by decide) truthy (fun e => by simp [carriesF])]
        rfl
      · rw [foldEventsO_fdv]
        rw [key "formatted_data_for_visualization" (by decide) truthy
          (fun e => by simp [carriesF])]
        rfl
      · rw [foldEventsO_rv]
        rw [key "recommended_visualization" (by decide) truthy (fun e => by simp [carriesF])]
        rfl
      · rw [foldEventsO_sql_query]
        rw [key "sql_query" (by decide) truthy (fun e => by simp [carriesF])]
        rfl
      · rw [foldEventsO_sql_valid]
        rw [key "sql_valid" (by decide) isDefined (fun e => by simp [carriesF])]
        rfl
      · rw [foldEventsO_parsed_question]
        rw [key "parsed_question" (by decide) truthy (fun e => by simp [carriesF])]
        rfl
      · exact foldEventsO_model_used {} evs
    rw [hempty]

/-- Concrete malformed events: a bare string, a number, an array and a
record with only an unknown field. -/
def weirdEvents : List JSValue :=
  [.str "junk", .num 0, .arr [], .obj [("unknown_field", .str "x")]]

theorem c6_no_throw_on_non_nullish_witness :
    (∀ e ∈ weirdEvents, safeEvent e = true) ∧
    ((∃ d, foldEvents {} weirdEvents = .ok d) ∧
     ((∀ e ∈ weirdEvents, ∀ k ∈ fieldKeys, carriesF e k = false) →
       foldEvents {} weirdEvents = .ok {})) :=
  ⟨by decide, c6_no_throw_on_non_nullish weirdEvents (by decide)⟩

/-- C10: in the answer fold a field that is present in an event but
holds a falsy value is treated as absent: an event whose answer,
sql_query, recommended_visualization or parsed_question value is falsy
(for instance the empty string) never overwrites a previously
accumulated value for that field; sql_valid alone is tested against
undefined, so an event carrying sql_valid equal to false does
overwrite whatever was accumulated before, a prior true included. -/
theorem c10_falsy_fields_ignored (d : AnswerDraft) (e : JSValue)
    (hsafe : safeEvent e = true) :
    ∃ res, foldStep d e = .ok res ∧
      (truthy (jsGet e "answer") = false → res.answer = d.answer) ∧
      (truthy (jsGet e "sql_query") = false → res.sql_query = d.sql_query) ∧
      (truthy (jsGet e "recommended_visualization") = false →
        res.recommended_visualization = d.recommended_visualization) ∧
      (truthy (jsGet e "parsed_question") = false → res.parsed_question = d.parsed_question) ∧
      (jsGet e "sql_valid" = .bool false → res.sql_valid = some (.bool false)) := by
  refine ⟨foldStepO d e, foldStep_safe hsafe d, ?_, ?_, ?_, ?_, ?_⟩ <;>
    rw [foldStepO_eq] <;> intro hc <;> simp [hc, isDefined]

/-- A draft already holding an answer and a valid sql flag. -/
def priorDraft : AnswerDraft :=
  { answer := some (.str "kept"), sql_valid := some (.bool true) }

/-- An event whose four guarded fields are falsy and whose sql_valid is
the boolean false. -/
def falsyEvent : JSValue :=
  .obj [("answer", .str ""), ("sql_query", .str ""),
        ("recommended_visualization", .str ""), ("parsed_question", .null),
        ("sql_valid", .bool false)]

theorem c10_falsy_fields_ignored_witness :
    (safeEvent falsyEvent = true) ∧
    ∃ res, foldStep priorDraft falsyEvent = .ok res ∧
      (truthy (jsGet falsyEvent "answer") = false → res.answer = priorDraft.answer) ∧
      (truthy (jsGet falsyEvent "sql_query") = false → res.sql_query = priorDraft.sql_query) ∧
      (truthy (jsGet falsyEvent "recommended_visualization") = false →
        res.recommended_visualization = priorDraft.recommended_visualization) ∧
      (truthy (jsGet falsyEvent "parsed_question") = false →
        res.parsed_question = priorDraft.parsed_question) ∧
      (jsGet falsyEvent "sql_valid" = .bool false → res.sql_valid = some (.bool false)) :=
  ⟨by decide, c10_falsy_fields_ignored priorDraft falsyEvent (by decide)⟩

theorem ite_comm_of_not_both {c1 c2 : Bool} {v1 v2 z : Option JSValue}
    (h : ¬(c1 = true ∧ c2 = true)) :
    (if c2 = true then v2 else if c1 = true then v1 else z)
      = (if c1 = true then v1 else if c2 = true then v2 else z) := by
  cases c1 <;> cases c2 <;> simp_all

/-- Two consecutive fold steps commute when the two events carry
disjoint sets of fields. -/
theorem foldStepO_comm {e1 e2 : JSValue}
    (h : ∀ k ∈ fieldKeys, ¬(carriesF e1 k = true ∧ carriesF e2 k = true))
    (z : AnswerDraft) :
    foldStepO (foldStepO z e1) e2 = foldStepO (foldStepO z e2) e1 := by
  apply AnswerDraft.ext <;> simp only [foldStepO_eq]
  · exact ite_comm_of_not_both (by have := h "answer" (by decide); simpa [carriesF] using this)
  · exact ite_comm_of_not_both
      (by have := h "formatted_data_for_visualization" (by decide)
          simpa [carriesF] using this)
  · exact ite_comm_of_not_both
      (by have := h "recommended_visualization" (by decide); simpa [carriesF] using this)
  · exact ite_comm_of_not_both
      (by have := h "sql_query" (by decide); simpa [carriesF] using this)
  · exact ite_comm_of_not_both
      (by have := h "sql_valid" (by decide); simpa [carriesF] using this)
  · exact ite_comm_of_not_both
      (by have := h "parsed_question" (by decide); simpa [carriesF] using this)

theorem lastCarried_foldl_keep {p : JSValue → Bool} {k : String} {evs : List JSValue}
    (h : ∀ x ∈ evs, p (jsGet x k) = false) (init : Option JSValue) :
    evs.foldl (fun acc x => if p (jsGet x k) then some (jsGet x k) else acc) init = init := by
  induction evs with
  | nil => rfl
  | cons e evs ih =>
      have he : p (jsGet e k) = false := h e (List.mem_cons_self e evs)
      simp only [List.foldl_cons, he, Bool.false_eq_true, if_false]
      exact ih fun x hx => h x (List.mem_cons_of_mem e hx)

/-- When at most one event of the sequence carries field k, the last
carried value is the value of that event. -/
theorem lastCarried_of_mem {p : JSValue → Bool} {k : String} {evs : List JSValue}
    (hpair : evs.Pairwise (fun a b => ¬(p (jsGet a k) = true ∧ p (jsGet b k) = true)))
    {e : JSValue} (he : e ∈ evs) (hc : p (jsGet e k) = true) :
    lastCarried p k evs = some (jsGet e k) := by
  induction evs with
  | nil => cases he
  | cons a evs ih =>
      rw [List.pairwise_cons] at hpair
      rcases List.mem_cons.mp he with rfl | hmem
      · have hrest : ∀ x ∈ evs, p (jsGet x k) = false := by
          intro x hx
          by_contra hx'
          exact hpair.1 x hx ⟨hc, by revert hx'; cases p (jsGet x k) <;> simp⟩
        simp only [lastCarried, List.foldl_cons, hc, if_true]
        exact lastCarried_foldl_keep hrest _
      · have ha : p (jsGet a k) = false := by
          by_contra ha'
          exact hpair.1 e hmem
            ⟨by revert ha'; cases p (jsGet a k) <;> simp, hc⟩
        simp only [lastCarried, List.foldl_cons, ha, Bool.false_eq_true, if_false]
        exact ih hpair.2 hmem

/-- The events of the sequence carry pairwise disjoint sets of
(present) fields. -/
def PairwiseDisjointFields (evs : List JSValue) : Prop :=
  evs.Pairwise (fun a b => ∀ k ∈ fieldKeys, ¬(carriesF a k = true ∧ carriesF b k = true))

/-- The record res is the union of the fields carried by the events of
evs: every field carried by some event holds the value of that event,
and every field carried by no event is absent. -/
def UnionOfFields (res : AnswerDraft) (evs : List JSValue) : Prop :=
  (∀ e ∈ evs,
    (carriesF e "answer" = true → res.answer = some (jsGet e "answer")) ∧
    (carriesF e "formatted_data_for_visualization" = true →
      res.formatted_data_for_visualization
        = some (jsGet e "formatted_data_for_visualization")) ∧
    (carriesF e "recommended_visualization" = true →
      res.recommended_visualization = some (jsGet e "recommended_visualization")) ∧
    (carriesF e "sql_query" = true → res.sql_query = some (jsGet e "sql_query")) ∧
    (carriesF e "sql_valid" = true → res.sql_valid = some (jsGet e "sql_valid")) ∧
    (carriesF e "parsed_question" = true →
      res.parsed_question = some (jsGet e "parsed_question"))) ∧
  ((∀ e ∈ evs, carriesF e "answer" = false) → res.answer = none) ∧
  ((∀ e ∈ evs, carriesF e "formatted_data_for_visualization" = false) →
    res.formatted_data_for_visualization = none) ∧
  ((∀ e ∈ evs, carriesF e "recommended_visualization" = false) →
    res.recommended_visualization = none) ∧
  ((∀ e ∈ evs, carriesF e "sql_query" = false) → res.sql_query = none) ∧
  ((∀ e ∈ evs, carriesF e "sql_valid" = false) → res.sql_valid = none) ∧
  ((∀ e ∈ evs, carriesF e "parsed_question" = false) → res.parsed_question = none)

/-- C8: for a sequence of stage events whose carried fields are
pairwise disjoint, the fold result is the union of the fields of all
events, and every permutation of the sequence folds to the same
result, so nothing depends on cross-field ordering. -/
theorem c8_disjoint_fields_union_perm (evs evs' : List JSValue)
    (hsafe : ∀ e ∈ evs, safeEvent e = true)
    (hdisj : PairwiseDisjointFields evs)
    (hperm : evs.Perm evs') :
    foldEvents {} evs' = foldEvents {} evs ∧
    ∃ res, foldEvents {} evs = .ok res ∧ UnionOfFields res evs := by
  have hsafe' : ∀ e ∈ evs', safeEvent e = true := fun e he => hsafe e (hperm.mem_iff.mpr he)
  constructor
  · rw [foldEvents_safe hsafe, foldEvents_safe hsafe']
    have : foldEventsO {} evs = foldEventsO {} evs' := by
      unfold foldEventsO
      apply hperm.foldl_eq'
      intro x hx y hy z
      by_cases hxy : x = y
      · rw [hxy]
      · have hsymm : Symmetric (fun a b : JSValue =>
            ∀ k ∈ fieldKeys, ¬(carriesF a k = true ∧ carriesF b k = true)) := by
          intro a b hab k hk hcon
          exact hab k hk ⟨hcon.2, hcon.1⟩
        have hrel := (List.Pairwise.forall hsymm hdisj) hx hy hxy
        exact foldStepO_comm hrel z
    rw [this]
  · refine ⟨foldEventsO {} evs, foldEvents_safe hsafe {}, ?_⟩
    have keyuniq : ∀ (kk : String) (p : JSValue → Bool), kk ∈ fieldKeys →
        (∀ x, carriesF x kk = p (jsGet x kk)) →
        ∀ e ∈ evs, p (jsGet e kk) = true → lastCarried p kk evs = some (jsGet e kk) := by
      intro kk p hkk hp e he hc
      apply lastCarried_of_mem ?_ he hc
      refine hdisj.imp ?_
      intro a b hab hcon
      exact hab kk hkk ⟨by rw [hp a]; exact hcon.1, by rw [hp b]; exact hcon.2⟩
    refine ⟨?_, ?_, ?_, ?_, ?_, ?_, ?_⟩
    · intro e he
      refine ⟨?_, ?_, ?_, ?_, ?_, ?_⟩ <;> intro hc
      · rw [foldEventsO_answer,
          keyuniq "answer" truthy (by decide) (fun x => by simp [carriesF]) e he
            (by simpa [carriesF] using hc)]
        rfl
      · rw [foldEventsO_fdv,
          keyuniq "formatted_data_for_visualization" truthy (by decide)
            (fun x => by simp [carriesF]) e he (by simpa [carriesF] using hc)]
        rfl
      · rw [foldEventsO_rv,
          keyuniq "recommended_visualization" truthy (by decide)
            (fun x => by simp [carriesF]) e he (by simpa [carriesF] using hc)]
        rfl
      · rw [foldEventsO_sql_query,
          keyuniq "sql_query" truthy (by decide) (fun x => by simp [carriesF]) e he
            (by simpa [carriesF] using hc)]
        rfl
      · rw [foldEventsO_sql_valid,
          keyuniq "sql_valid" isDefined (by decide) (fun x => by simp [carriesF]) e he
            (by simpa [carriesF] using hc)]
        rfl
      · rw [foldEventsO_parsed_question,
          keyuniq "parsed_question" truthy (by decide) (fun x => by simp [carriesF]) e he
            (by simpa [carriesF] using hc)]
        rfl
    · intro hno
      rw [foldEventsO_answer,
        lastCarried_none (fun e he => by simpa [carriesF] using hno e he)]
      rfl
    · intro hno
      rw [foldEventsO_fdv,
        lastCarried_none (fun e he => by simpa [carriesF] using hno e he)]
      rfl
    · intro hno
      rw [foldEventsO_rv,
        lastCarried_none (fun e he => by simpa [carriesF] using hno e he)]
      rfl
    · intro hno
      rw [foldEventsO_sql_query,
        lastCarried_none (fun e he => by simpa [carriesF] using hno e he)]
      rfl
    · intro hno
      rw [foldEventsO_sql_valid,
        lastCarried_none (fun e he => by simpa [carriesF] using hno e he)]
      rfl
    · intro hno
      rw [foldEventsO_parsed_question,
        lastCarried_none (fun e he => by simpa [carriesF] using hno e he)]
      rfl

/-- A concrete event carrying answer and sql_valid. -/
def dEv1 : JSValue := .obj [("answer", .str "hello"), ("sql_valid", .bool false)]

/-- A concrete event carrying only sql_query. -/
def dEv2 : JSValue := .obj [("sql_query", .str "SELECT 1")]

theorem c8_disjoint_fields_union_perm_witness :
    (∀ e ∈ [dEv1, dEv2], safeEvent e = true) ∧ PairwiseDisjointFields [dEv1, dEv2] ∧
    (foldEvents {} [dEv2, dEv1] = foldEvents {} [dEv1, dEv2] ∧
     ∃ res, foldEvents {} [dEv1, dEv2] = .ok res ∧ UnionOfFields res [dEv1, dEv2]) :=
  ⟨by decide, by unfold PairwiseDisjointFields; decide,
    c8_disjoint_fields_union_perm [dEv1, dEv2] [dEv2, dEv1] (by decide)
      (by unfold PairwiseDisjointFields; decide) (List.Perm.swap dEv2 dEv1 [])⟩

/-- The request record built by askQuestion in chat.tsx (lines 110 to
127): question, type (datasetType with the fallback direct_chat when
falsy) and llm_model always; dataset_id and selected_tables only when
a data source id is present; the conversation identifier, when
present, is written under the key conversaction_id exactly as the
source spells it. -/
def requestBody (question : String) (datasetType : Option String)
    (llm_model : String) (tables : List String)
    (data_source_id : Option Int) (conversation_id : Option Int) :
    List (String × JSValue) :=
  let base : List (String × JSValue) :=
    [("question", .str question),
     ("type", .str (match datasetType with
        | some t => if t == "" then "direct_chat" else t
        | none => "direct_chat")),
     ("llm_model", .str llm_model)]
  let base2 := match data_source_id with
    | some d => base ++ [("dataset_id", .num d), ("selected_tables", .arr (tables.map .str))]
    | none => base
  match conversation_id with
  | some c => base2 ++ [("conversaction_id", .num c)]
  | none => base2

/-- C7: evaluating the request builder at an input where a
conversation identifier (7) is present and no data source is: the body
holds exactly the keys question, type, llm_model and the misspelled
conversaction_id; the key conversation_id named by the claim is
absent, while question and llm_model do carry the submitted text and
the selected model. -/
theorem c7_requestBody_conversaction_key :
    ((requestBody "q" (some "direct_chat") "gpt-4o-mini" [] none (some 7)).map Prod.fst
      = ["question", "type", "llm_model", "conversaction_id"]) ∧
    ("conversation_id" ∉
      (requestBody "q" (some "direct_chat") "gpt-4o-mini" [] none (some 7)).map Prod.fst) ∧
    ((requestBody "q" (some "direct_chat") "gpt-4o-mini" [] none (some 7)).find?
      (fun p => p.1 == "question") = some ("question", .str "q")) ∧
    ((requestBody "q" (some "direct_chat") "gpt-4o-mini" [] none (some 7)).find?
      (fun p => p.1 == "llm_model") = some ("llm_model", .str "gpt-4o-mini")) :=
  ⟨by decide, by decide, rfl, rfl⟩

/-- One entry of the conversation message list of chat.tsx: a user
question, an assembled answer, or a file-upload notice. -/
inductive ConversationMessage where
  | userQuestion : String → ConversationMessage
  | aiAnswer : AnswerDraft → ConversationMessage
  | fileUpload : String → Nat → String → ConversationMessage

/-- The three setMessages mutations of chat.tsx: askQuestion appends
the user question (line 105), onSuccess appends the assembled answer
(lines 66 to 71), and the file-upload effect (lines 84 to 94) replaces
the list with one notice, guarded by the list being empty. -/
inductive LogOp where
  | submitQuestion : String → LogOp
  | assembleAnswer : AnswerDraft → LogOp
  | fileUploadEffect : String → Nat → String → LogOp

def applyLogOp (msgs : List ConversationMessage) : LogOp → List ConversationMessage
  | .submitQuestion q => msgs ++ [.userQuestion q]
  | .assembleAnswer a => msgs ++ [.aiAnswer a]
  | .fileUploadEffect n s t =>
      if msgs.length = 0 then [.fileUpload n s t] else msgs

def applyLogOps (msgs : List ConversationMessage) (ops : List LogOp) :
    List ConversationMessage :=
  ops.foldl applyLogOp msgs

theorem applyLogOp_append (msgs : List ConversationMessage) (op : LogOp) :
    ∃ s, applyLogOp msgs op = msgs ++ s := by
  cases op with
  | submitQuestion q => exact ⟨[.userQuestion q], rfl⟩
  | assembleAnswer a => exact ⟨[.aiAnswer a], rfl⟩
  | fileUploadEffect n s t =>
      by_cases h : msgs.length = 0
      · rw [List.length_eq_zero] at h
        subst h
        exact ⟨[.fileUpload n s t], by simp [applyLogOp]⟩
      · exact ⟨[], by simp [applyLogOp, h]⟩

/-- C9: every mutation of the conversation message list only ever
appends: after any sequence of operations the new list is the old list
followed by a suffix, so the length is monotonically non-decreasing
and every previously appended message is preserved unchanged at its
original position. -/
theorem c9_log_append_only (msgs : List ConversationMessage) (ops : List LogOp) :
    ∃ s, applyLogOps msgs ops = msgs ++ s ∧
      msgs.length ≤ (applyLogOps msgs ops).length ∧
      ∀ i, i < msgs.length → (applyLogOps msgs ops)[i]? = msgs[i]? := by
  suffices h : ∃ s, applyLogOps msgs ops = msgs ++ s by
    obtain ⟨s, hs⟩ := h
    refine ⟨s, hs, ?_, ?_⟩
    · rw [hs]; simp
    · intro i hi
      rw [hs]
      exact List.getElem?_append_left hi
  induction ops generalizing msgs with
  | nil => exact ⟨[], by simp [applyLogOps]⟩
  | cons op ops ih =>
      obtain ⟨s1, h1⟩ := applyLogOp_append msgs op
      obtain ⟨s2, h2⟩ := ih (applyLogOp msgs op)
      refine ⟨s1 ++ s2, ?_⟩
      calc applyLogOps msgs (op :: ops)
          = applyLogOps (applyLogOp msgs op) ops := rfl
        _ = applyLogOp msgs op ++ s2 := h2
        _ = msgs ++ (s1 ++ s2) := by rw [h1, List.append_assoc]

/-- JavaScript strict equality of a value against a string literal. -/
def jsStrictEqStr (v : JSValue) (s : String) : Bool :=
  match v with
  | .str t => t == s
  | _ => false

/-- JavaScript strict equality of a value against a number literal. -/
def jsStrictEqNum (v : JSValue) (n : Int) : Bool :=
  match v with
  | .num m => m == n
  | _ => false

/-- Optional chaining v?.k: undefined on a nullish receiver, an
ordinary access otherwise. -/
def optChainGet (v : JSValue) (k : String) : JSValue :=
  match v with
  | .undefined => .undefined
  | .null => .undefined
  | _ => jsGet v k

/-- The default-model effect shared by ModelSelector.tsx (lines 27 to
35) and SelectDataset.tsx: when the selection is falsy and the loaded
list is non-empty, look the entry named gpt-4o-mini up and, when
found, select its name; otherwise leave the selection unchanged. -/
def defaultModelEffect (model : JSValue) (availableModels : List JSValue) : JSValue :=
  if !(truthy model) && decide (0 < availableModels.length) then
    match availableModels.find? (fun m => jsStrictEqStr (jsGet m "name") "gpt-4o-mini") with
    | some defaultModel => jsGet defaultModel "name"
    | none => model
  else model

/-- The selection state: the selected model of the store together with
the loaded catalog. -/
structure SelState where
  model : JSValue
  availableModels : List JSValue

/-- The actions that touch the selection state: a catalog load (or
reload), an explicit user selection through the dropdown (whose
placeholder option carries the empty value), and a run of the
default-model effect. -/
inductive SelAction where
  | loadCatalog : List JSValue → SelAction
  | userSelect : String → SelAction
  | runDefaultEffect : SelAction

def stepSel (s : SelState) : SelAction → SelState
  | .loadCatalog l => { s with availableModels := l }
  | .userSelect name => { s with model := .str name }
  | .runDefaultEffect => { s with model := defaultModelEffect s.model s.availableModels }

/-- The default-model effect fires (calls setModel) exactly when the
selection is falsy, the list is non-empty and gpt-4o-mini is found. -/
def effectFires (s : SelState) : Bool :=
  !(truthy s.model) && decide (0 < s.availableModels.length) &&
    (s.availableModels.find? (fun m => jsStrictEqStr (jsGet m "name") "gpt-4o-mini")).isSome

/-- How many times the default-model effect fires along a trace. -/
def fireCount (s : SelState) : List SelAction → Nat
  | [] => 0
  | a :: rest =>
      (match a with
       | .runDefaultEffect => if effectFires s then 1 else 0
       | _ => 0) + fireCount (stepSel s a) rest

def runSel (s : SelState) (trace : List SelAction) : SelState :=
  trace.foldl stepSel s

/-- The catalog entry of the designated default model. -/
def miniEntry : JSValue :=
  .obj [("name", .str "gpt-4o-mini"), ("display_name", .str "GPT-4o Mini"),
        ("description", .str "Fast and cost-effective"), ("platform", .str "openai"),
        ("capability", .str "fast"), ("best_for", .arr [])]

/-- A trace in which the catalog loads, the default fires, the user
explicitly selects the empty placeholder option, and the effect runs
again. -/
def c4Trace : List SelAction :=
  [.loadCatalog [miniEntry], .runDefaultEffect, .userSelect "", .runDefaultEffect]

/-- C4 counterexample: along c4Trace the default-selection effect
fires twice, not at most once, and the second firing overwrites the
explicit user selection of the empty placeholder with gpt-4o-mini:
the guard of the source is model falsiness, which the placeholder
selection restores. -/
theorem c4_counterexample_fires_twice :
    fireCount { model := .str "", availableModels := [] } c4Trace = 2 ∧
    (runSel { model := .str "", availableModels := [] } c4Trace).model
      = .str "gpt-4o-mini" :=
  ⟨by decide, rfl⟩

/-- An action is an explicit selection of an actual model when it is
not a userSelect of the empty placeholder value. -/
def selectsNonEmpty : SelAction → Bool
  | .userSelect name => name != ""
  | _ => true

theorem find_mini_name {l : List JSValue} {dm : JSValue}
    (h : l.find? (fun m => jsStrictEqStr (jsGet m "name") "gpt-4o-mini") = some dm) :
    jsGet dm "name" = .str "gpt-4o-mini" := by
  have hp := List.find?_some h
  cases hv : jsGet dm "name" <;> rw [hv] at hp <;> simp [jsStrictEqStr] at hp
  rw [hp]

theorem defaultModelEffect_keeps {m : JSValue} (l : List JSValue)
    (h : truthy m = true) : defaultModelEffect m l = m := by
  simp [defaultModelEffect, h]

theorem effect_truthy_after {s : SelState} (h : effectFires s = true) :
    truthy (defaultModelEffect s.model s.availableModels) = true := by
  unfold effectFires at h
  simp only [Bool.and_eq_true, Bool.not_eq_true', decide_eq_true_eq,
    Option.isSome_iff_exists] at h
  obtain ⟨⟨hm, hlen⟩, dm, hdm⟩ := h
  unfold defaultModelEffect
  rw [hm, hdm]
  simp [find_mini_name hdm, truthy, hlen]

theorem truthy_preserved {s : SelState} {a : SelAction}
    (ha : selectsNonEmpty a = true) (h : truthy s.model = true) :
    truthy (stepSel s a).model = true := by
  cases a with
  | loadCatalog l => exact h
  | userSelect n => simpa [stepSel, truthy, selectsNonEmpty] using ha
  | runDefaultEffect => simpa [stepSel, defaultModelEffect_keeps _ h] using h

theorem fireCount_zero {trace : List SelAction} {s : SelState}
    (h : truthy s.model = true)
    (hne : ∀ a ∈ trace, selectsNonEmpty a = true) : fireCount s trace = 0 := by
  induction trace generalizing s with
  | nil => rfl
  | cons a rest ih =>
      have ha : selectsNonEmpty a = true := hne a (List.mem_cons_self a rest)
      have hrest : ∀ x ∈ rest, selectsNonEmpty x = true :=
        fun x hx => hne x (List.mem_cons_of_mem a hx)
      have hfires : effectFires s = false := by
        unfold effectFires
        simp [h]
      cases a with
      | loadCatalog l =>
          simpa [fireCount] using ih (truthy_preserved (a := .loadCatalog l) rfl h) hrest
      | userSelect n =>
          simpa [fireCount] using ih (truthy_preserved (a := .userSelect n) ha h) hrest
      | runDefaultEffect =>
          simpa [fireCount, hfires] using
            ih (truthy_preserved (a := .runDefaultEffect) rfl h) hrest

theorem fireCount_le_one {trace : List SelAction} {s : SelState}
    (hne : ∀ a ∈ trace, selectsNonEmpty a = true) : fireCount s trace ≤ 1 := by
  induction trace generalizing s with
  | nil => exact Nat.zero_le 1
  | cons a rest ih =>
      have hrest : ∀ x ∈ rest, selectsNonEmpty x = true :=
        fun x hx => hne x (List.mem_cons_of_mem a hx)
      cases a with
      | loadCatalog l => simpa [fireCount] using ih hrest
      | userSelect n => simpa [fireCount] using ih hrest
      | runDefaultEffect =>
          by_cases hf : effectFires s = true
          · have hz : fireCount (stepSel s .runDefaultEffect) rest = 0 :=
              fireCount_zero (by simpa [stepSel] using effect_truthy_after hf) hrest
            simp [fireCount, hf, hz]
          · simp only [Bool.not_eq_true] at hf
            simpa [fireCount, hf] using ih hrest

/-- C4 amended: the default-selection rule fires whenever the catalog
is non-empty, the selection is falsy and the default id gpt-4o-mini is
found, setting the selection to that id, and leaves the selection
unchanged when the id is absent; a truthy (non-empty) selection is
never overwritten by the rule; hence along any trace in which every
explicit user selection picks an actual model (a non-empty id) the
rule fires at most once.  Selecting the empty placeholder option
restores a falsy selection and makes the rule fire again, which is the
behavior the counterexample exhibits. -/
theorem c4_default_rule_amended (s : SelState) (trace : List SelAction)
    (hne : ∀ a ∈ trace, selectsNonEmpty a = true) :
    fireCount s trace ≤ 1 ∧
    (∀ (m : JSValue) (l : List JSValue), truthy m = true → defaultModelEffect m l = m) ∧
    (∀ (m : JSValue) (l : List JSValue) (dm : JSValue), truthy m = false →
      l.find? (fun x => jsStrictEqStr (jsGet x "name") "gpt-4o-mini") = some dm →
      defaultModelEffect m l = .str "gpt-4o-mini") ∧
    (∀ (m : JSValue) (l : List JSValue), truthy m = false →
      l.find? (fun x => jsStrictEqStr (jsGet x "name") "gpt-4o-mini") = none →
      defaultModelEffect m l = m) := by
  refine ⟨fireCount_le_one hne, fun m l h => defaultModelEffect_keeps l h, ?_, ?_⟩
  · intro m l dm hm hdm
    have hlen : 0 < l.length := by
      cases l with
      | nil => simp at hdm
      | cons x xs => simp
    unfold defaultModelEffect
    rw [hm, hdm]
    simp [find_mini_name hdm, hlen]
  · intro m l hm hdm
    unfold defaultModelEffect
    rw [hm, hdm]
    simp

theorem c4_default_rule_amended_witness :
    (∀ a ∈ [SelAction.loadCatalog [miniEntry], SelAction.runDefaultEffect,
            SelAction.userSelect "llama-3.1-8b-instant"], selectsNonEmpty a = true) ∧
    (fireCount { model := .str "", availableModels := [] }
        [SelAction.loadCatalog [miniEntry], SelAction.runDefaultEffect,
         SelAction.userSelect "llama-3.1-8b-instant"] ≤ 1 ∧
     (∀ (m : JSValue) (l : List JSValue), truthy m = true → defaultModelEffect m l = m) ∧
     (∀ (m : JSValue) (l : List JSValue) (dm : JSValue), truthy m = false →
       l.find? (fun x => jsStrictEqStr (jsGet x "name") "gpt-4o-mini") = some dm →
       defaultModelEffect m l = .str "gpt-4o-mini") ∧
     (∀ (m : JSValue) (l : List JSValue), truthy m = false →
       l.find? (fun x => jsStrictEqStr (jsGet x "name") "gpt-4o-mini") = none →
       defaultModelEffect m l = m)) :=
  ⟨by decide,
    c4_default_rule_amended { model := .str "", availableModels := [] }
      [SelAction.loadCatalog [miniEntry], SelAction.runDefaultEffect,
       SelAction.userSelect "llama-3.1-8b-instant"] (by decide)⟩

/-- The hardcoded fallback list of ModelSelector.tsx (lines 51 to 54):
two OpenAI entries and no Groq entry. -/
def modelSelectorFallback : JSValue :=
  .arr [
    .obj [("name", .str "gpt-4o-mini"), ("display_name", .str "GPT-4o Mini"),
          ("description", .str "Fast and cost-effective"), ("platform", .str "openai"),
          ("capability", .str "fast"), ("best_for", .arr [])],
    .obj [("name", .str "gpt-4o"), ("display_name", .str "GPT-4o"),
          ("description", .str "Best all-around"), ("platform", .str "openai"),
          ("capability", .str "balanced"), ("best_for", .arr [])]]

/-- The hardcoded fallback list of SelectDataset.tsx: one OpenAI entry
and one Groq entry. -/
def selectDatasetFallback : JSValue :=
  .arr [
    .obj [("name", .str "gpt-4o-mini"), ("display_name", .str "GPT-4o Mini"),
          ("description", .str "Fast and cost-effective"), ("platform", .str "openai"),
          ("capability", .str "fast"), ("best_for", .arr [])],
    .obj [("name", .str "gemma2-9b-it"), ("display_name", .str "Gemma 2 9B"),
          ("description", .str "Balanced model"), ("platform", .str "groq"),
          ("capability", .str "balanced"), ("best_for", .arr [])]]

/-- The try block of fetchModels, applied to the parsed response body:
reads data.status_code (throwing on a nullish body), and when it is
strictly 200 and data.data?.models is truthy stores the models value;
otherwise the current list cur is left in place. -/
def fetchModelsTry (cur : JSValue) (data : JSValue) : Except String JSValue := do
  let sc ← data.getFieldE "status_code"
  if jsStrictEqNum sc 200 then
    let dd ← data.getFieldE "data"
    let models := optChainGet dd "models"
    if truthy models then pure models else pure cur
  else pure cur

/-- fetchModels of ModelSelector.tsx: the outcome is either a thrown
error from fetch or response.json(), or the parsed body; the catch
block substitutes the hardcoded ModelSelector fallback whenever
anything inside the try block throws. -/
def modelSelectorFetch (outcome : Except String JSValue) (cur : JSValue) : JSValue :=
  match outcome.bind (fetchModelsTry cur) with
  | .ok v => v
  | .error _ => modelSelectorFallback

/-- fetchModels of SelectDataset.tsx, identical but for its own
fallback list. -/
def selectDatasetFetch (outcome : Except String JSValue) (cur : JSValue) : JSValue :=
  match outcome.bind (fetchModelsTry cur) with
  | .ok v => v
  | .error _ => selectDatasetFallback

/-- How many entries of a loaded model list carry the given platform
tag. -/
def platformCount (v : JSValue) (p : String) : Nat :=
  match v with
  | .arr xs => (xs.filter (fun m => jsStrictEqStr (jsGet m "platform") p)).length
  | _ => 0

/-- C5 counterexample: the fallback list that ModelSelector.tsx
substitutes on a fetch failure contains no groq entry at all (both of
its entries are openai), contradicting at least one entry per
platform. -/
theorem c5_counterexample_no_groq_fallback :
    platformCount modelSelectorFallback "groq" = 0 ∧
    modelSelectorFetch (.error "network error") (.arr []) = modelSelectorFallback :=
  ⟨by decide, rfl⟩

/-- C5 amended: when the model-catalog fetch or the JSON parse throws
(a nullish parsed body included, since reading status_code on it
throws inside the try block) the component substitutes its hardcoded
fallback list; a well-formed response that lacks status 200 or a
truthy models field does not trigger the fallback and leaves the list
empty instead.  The SelectDataset fallback holds at least one openai
and at least one groq entry; the ModelSelector fallback holds two
openai entries and no groq entry, so only the former satisfies one
entry per platform. -/
theorem c5_fallback_amended :
    modelSelectorFetch (.error "network error") (.arr []) = modelSelectorFallback ∧
    selectDatasetFetch (.error "network error") (.arr []) = selectDatasetFallback ∧
    modelSelectorFetch (.ok .null) (.arr []) = modelSelectorFallback ∧
    modelSelectorFetch (.ok (.obj [])) (.arr []) = .arr [] ∧
    modelSelectorFetch
      (.ok (.obj [("status_code", .num 500), ("data", .obj [("models", .arr [miniEntry])])]))
      (.arr []) = .arr [] ∧
    modelSelectorFetch
      (.ok (.obj [("status_code", .num 200), ("data", .obj [("models", .arr [miniEntry])])]))
      (.arr []) = .arr [miniEntry] ∧
    1 ≤ platformCount modelSelectorFallback "openai" ∧
    platformCount modelSelectorFallback "groq" = 0 ∧
    1 ≤ platformCount selectDatasetFallback "openai" ∧
    1 ≤ platformCount selectDatasetFallback "groq" :=
  ⟨rfl, rfl, rfl, rfl, rfl, rfl, by decide, by decide, by decide, by decide⟩

/-- Modelled from the spec: the useStreamChat hook and its session
plumbing are not part of the sources at hand, so the aggregator state
of sections 4.2 and 5 of the spec is modelled here: a monotonically
increasing session counter, the ProcessingState event log, the
accumulating draft and the message list. -/
structure AggState where
  counter : Nat
  processing : List JSValue
  draft : AnswerDraft
  messages : List ConversationMessage

/-- Modelled from the spec: an input delivered by a stream, tagged
with the identity of the session that produced it: either one stage
event or the success terminal, which assembles the answer stamping the
selected model current at that moment. -/
inductive StreamInput where
  | stage : Nat → JSValue → StreamInput
  | success : Nat → String → StreamInput

/-- The session tag of an input. -/
def inputSid : StreamInput → Nat
  | .stage sid _ => sid
  | .success sid _ => sid

/-- Modelled from the spec: submitting a new question increments the
session counter, resets the ProcessingState and the draft, and appends
the user question to the log. -/
def startSession (s : AggState) (q : String) : AggState :=
  { counter := s.counter + 1, processing := [], draft := {},
    messages := s.messages ++ [.userQuestion q] }

/-- Modelled from the spec: an input is accepted only when its session
tag matches the current counter; accepted stage events are appended to
ProcessingState and folded into the draft; an accepted success
terminal assembles the answer from the draft, stamped with the current
selected model, and appends it; anything from another session leaves
the state untouched. -/
def stepInput (s : AggState) : StreamInput → AggState
  | .stage sid e =>
      if sid = s.counter then
        { s with processing := s.processing ++ [e], draft := foldStepO s.draft e }
      else s
  | .success sid model =>
      if sid = s.counter then
        { s with messages :=
            s.messages ++ [.aiAnswer { s.draft with model_used := some (.str model) }] }
      else s

def runInputs (s : AggState) (inputs : List StreamInput) : AggState :=
  inputs.foldl stepInput s

theorem stepInput_counter (s : AggState) (i : StreamInput) :
    (stepInput s i).counter = s.counter := by
  cases i with
  | stage sid e =>
      by_cases h : sid = s.counter <;> simp [stepInput, h]
  | success sid model =>
      by_cases h : sid = s.counter <;> simp [stepInput, h]

theorem stepInput_stale {s : AggState} {i : StreamInput}
    (h : inputSid i ≠ s.counter) : stepInput s i = s := by
  cases i with
  | stage sid e => simp_all [stepInput, inputSid]
  | success sid model => simp_all [stepInput, inputSid]

theorem runInputs_filter (s : AggState) (inputs : List StreamInput) :
    runInputs s inputs
      = runInputs s (inputs.filter (fun i => inputSid i == s.counter)) := by
  induction inputs generalizing s with
  | nil => rfl
  | cons i rest ih =>
      by_cases h : inputSid i = s.counter
      · have hcnt : (stepInput s i).counter = s.counter := stepInput_counter s i
        simp only [runInputs, List.foldl_cons, List.filter_cons, h, beq_self_eq_true,
          if_true]
        have := ih (stepInput s i)
        simp only [runInputs] at this
        rw [this, hcnt]
      · have hbeq : (inputSid i == s.counter) = false := by
          simpa using h
        simp only [runInputs, List.foldl_cons, List.filter_cons, hbeq, Bool.false_eq_true,
          if_false, stepInput_stale h]
        exact ih s

/-- C2 (modelled from the spec): once session S2 starts, the session
counter has strictly increased past every earlier session, and the run
of any list of delivered inputs equals the run of only those inputs
whose session tag matches the current counter: an input from a
superseded session, delivered after S2 started, alters nothing and
contributes nothing to any assembled answer. -/
theorem c2_supersession (s : AggState) (q : String) (inputs : List StreamInput) :
    (startSession s q).counter = s.counter + 1 ∧
    (∀ i : StreamInput, inputSid i ≠ (startSession s q).counter →
      stepInput (startSession s q) i = startSession s q) ∧
    runInputs (startSession s q) inputs
      = runInputs (startSession s q)
          (inputs.filter (fun i => inputSid i == (startSession s q).counter)) :=
  ⟨rfl, fun _ h => stepInput_stale h, runInputs_filter (startSession s q) inputs⟩
